import Mathlib

/-!
Verification of `build-scripts/build-release.py`, the release-artifact
packaging script.  The Python source is shallowly embedded: pure pieces
become Lean functions, `assert`/`raise` failures become `Except.error`,
timestamps (`datetime`) become `Nat` (datetime values are totally ordered
and only their order and equality matter to the script), file data
(`bytes`) becomes `String` (the script only moves data around, never
inspects it), and calls into external libraries (`re`, `zipfile`/`tarfile`
serialization, `glob`, `datetime.fromisoformat`, subprocesses) become
function parameters.
-/

namespace BuildRelease

/-- Python `str.strip()`: remove leading and trailing whitespace. -/
def pyStrip (s : String) : String :=
  String.mk (((s.data.dropWhile Char.isWhitespace).reverse.dropWhile Char.isWhitespace).reverse)

/-- Python `str.startswith(pre)`. -/
def pyStartsWith (s pre : String) : Bool :=
  List.isPrefixOf pre.data s.data

/-- Python `line.split(maxsplit=1)` followed by unpacking into exactly two
variables, as in `mod_type, file_paths = line.split(maxsplit=1)`.
Returns `none` when the unpacking would raise `ValueError` (fewer than two
fields). The second field keeps trailing whitespace, as in Python. -/
def pySplitMax1 (s : String) : Option (String × String) :=
  let cs := s.data.dropWhile Char.isWhitespace
  let tok := cs.takeWhile (fun c => !c.isWhitespace)
  let rest := (cs.dropWhile (fun c => !c.isWhitespace)).dropWhile Char.isWhitespace
  if tok.isEmpty then none
  else if rest.isEmpty then none
  else some (String.mk tok, String.mk rest)

/-- Python `str.split("\t")`. -/
def splitTab : List Char → List (List Char)
  | [] => [[]]
  | c :: rest =>
      if c = '\t' then [] :: splitTab rest
      else
        match splitTab rest with
        | [] => [[c]]
        | g :: gs => (c :: g) :: gs

/-- Python `str.split("\t")` on a `String`, returning `String` pieces. -/
def pySplitTab (s : String) : List String :=
  (splitTab s.data).map String.mk

/-- CPython `pathlib.PurePath.suffix`: the extension of the final path
component; `name[i:]` where `i = name.rfind(".")`, provided
`0 < i < len(name) - 1`, and `""` otherwise. -/
def pathSuffix (s : String) : String :=
  let nameRev := s.data.reverse.takeWhile (fun c => c ≠ '/')
  let extRev := nameRev.takeWhile (fun c => c ≠ '.')
  match nameRev.drop extRev.length with
  | [] => ""
  | _ :: before =>
      if before.isEmpty then ""
      else if extRev.isEmpty then ""
      else String.mk ('.' :: extRev.reverse)

/-- Python file-object semantics of `f.seek(off); f.write(piece)` on a file
currently holding `bytes`: positions before `off` are kept (zero-padded if
the file was shorter than `off`), `piece` overwrites positions
`off ..= off + piece.length - 1`, and the rest of the file is kept. -/
def fileWrite (bytes : List Nat) (off : Nat) (piece : List Nat) : List Nat :=
  (bytes.take off ++ List.replicate (off - bytes.length) 0) ++ piece ++ bytes.drop (off + piece.length)

/-- Constant `GIT_HASH_FILENAME = ".git-hash"` (line 29 of the source). -/
def GIT_HASH_FILENAME : String := ".git-hash"

/-- Model of `Releaser.TreeItem = namedtuple("TreeItem", ("path", "mode", "data", "time"))`. -/
structure TreeItem where
  path : String
  mode : Nat
  data : String
  time : Nat
deriving DecidableEq, Repr

/-- One regular-file member of the tar stream produced by `git archive`:
its name, mode and contents. `_get_git_contents` only looks at members
with `isfile()`, which is what this structure represents. -/
structure RawFile where
  name : String
  mode : Nat
  data : String
deriving DecidableEq, Repr

/-- Embeds `Releaser._path_filter`: drop paths starting with `".git"`. -/
def pathFilter (path : String) : Bool :=
  if pyStartsWith path ".git" then false else true

/-- The loop body of `Releaser._get_file_times` acting on one parsed file
line: for every tab-separated path on the line, record the current commit
time for it if it is a requested path not seen yet. -/
def recordPaths (paths : List String) (t : Nat) (acc : List (String × Nat))
    (filePaths : String) : List (String × Nat) :=
  (pySplitTab filePaths).foldl
    (fun a fp => if paths.contains fp && (a.lookup fp).isNone then a ++ [(fp, t)] else a) acc

/-- The line-processing loop of `Releaser._get_file_times` (lines 193-205).
`fromiso` embeds `datetime.datetime.fromisoformat`; `current` is
`current_time`, `acc` is the insertion-ordered dict `path_times`.
Errors: a line with fewer than two whitespace-separated fields raises
`ValueError` from tuple unpacking; a file line before any time line trips
`assert current_time is not None`; at the end,
`assert set(path_times.keys()) == set_paths` is checked. -/
def getFileTimesGo (paths : List String) (fromiso : String → Nat)
    (current : Option Nat) (acc : List (String × Nat)) :
    List String → Except String (List (String × Nat))
  | [] =>
      if paths.all (fun p => (acc.lookup p).isSome) && acc.all (fun pr => paths.contains pr.1) then
        .ok acc
      else
        .error "AssertionError: set(path_times.keys()) == set_paths"
  | line :: rest =>
      if line = "" then getFileTimesGo paths fromiso current acc rest
      else if pyStartsWith line "time=" then
        getFileTimesGo paths fromiso (some (fromiso (String.mk (line.data.drop 5)))) acc rest
      else
        match pySplitMax1 line with
        | none => .error "ValueError: not enough values to unpack"
        | some (_modType, filePaths) =>
          match current with
          | none => .error "AssertionError: current_time is not None"
          | some t =>
              getFileTimesGo paths fromiso (some t) (recordPaths paths t acc filePaths) rest

/-- Embeds `Releaser._get_file_times`: walk the `git log --name-status` output
(one `String` per line, newest commit first) and assign to every requested
path the commit time current at its first mention. -/
def getFileTimes (fromiso : String → Nat) (commitLog : List String)
    (paths : List String) : Except String (List (String × Nat)) :=
  getFileTimesGo paths fromiso none [] commitLog

/-- Specification-side reading of the same walk: the committer time of the
newest commit in the log output that touches `p` (first mention wins),
or `none` when no commit in the log touches `p`. -/
def firstMention (fromiso : String → Nat) (p : String) :
    Option Nat → List String → Option Nat
  | _, [] => none
  | current, line :: rest =>
      if line = "" then firstMention fromiso p current rest
      else if pyStartsWith line "time=" then
        firstMention fromiso p (some (fromiso (String.mk (line.data.drop 5)))) rest
      else
        match pySplitMax1 line with
        | none => firstMention fromiso p current rest
        | some (_modType, filePaths) =>
            if (pySplitTab filePaths).contains p then current
            else firstMention fromiso p current rest

/-- Well-formedness of the log output: every nonempty line is either a
time line or a two-field file line, and no file line appears before the
first time line. Under this condition `_get_file_times` cannot die of
`ValueError` or of the `current_time` assertion. -/
def logOk : Bool → List String → Bool
  | _, [] => true
  | seenTime, line :: rest =>
      if line = "" then logOk seenTime rest
      else if pyStartsWith line "time=" then logOk true rest
      else (pySplitMax1 line).isSome && seenTime && logOk seenTime rest

/-- Embeds `Releaser._get_git_contents`: take the regular-file members of
`git archive`, assert that every manifest `checks` file is among their
names, attach commit times to all names, then keep the files passing
`_path_filter` as `TreeItem`s (in tar-stream order, which for a
`git archive` stream has pairwise-distinct names). -/
def getGitContents (fromiso : String → Nat) (commitLog : List String)
    (checks : List String) (rawFiles : List RawFile) :
    Except String (List TreeItem) :=
  let filenames := rawFiles.map RawFile.name
  if checks.all (fun c => filenames.contains c) then
    match getFileTimes fromiso commitLog filenames with
    | .error e => .error e
    | .ok fileTimes =>
        .ok (rawFiles.filterMap (fun f =>
          if pathFilter f.name then
            some (TreeItem.mk f.name f.mode f.data ((fileTimes.lookup f.name).getD 0))
          else none))
  else
    .error "AssertionError: a checks file must exist"

/-- Embeds `max(item.time for item in git_files)`: Python `max` over the times,
raising `ValueError` on an empty sequence. -/
def maxTime (files : List TreeItem) : Except String Nat :=
  match files with
  | [] => .error "ValueError: max() arg is an empty sequence"
  | f :: fs => .ok ((fs.map TreeItem.time).foldl Nat.max f.time)

/-- The sort key relation of `git_files.sort(key=lambda v: v.time)`. -/
def timele (a b : TreeItem) : Prop := a.time ≤ b.time

instance : DecidableRel timele := fun a b => Nat.decLe a.time b.time

instance : IsTotal TreeItem timele := ⟨fun a b => Nat.le_total a.time b.time⟩

instance : IsTrans TreeItem timele := ⟨fun _ _ _ h h2 => Nat.le_trans h h2⟩

/-- Embeds `git_files.sort(key=lambda v: v.time)`: Python `list.sort` is a stable
sort; insertion sort is its canonical stable model. -/
def sortByTime (files : List TreeItem) : List TreeItem :=
  List.insertionSort timele files

/-- The two synthetic entries appended in `create_source_archives`
(lines 240-241): the `VERSION.txt` marker and the `GIT_HASH_FILENAME`
marker, both with mode `0o100644` and the latest real modification time. -/
def appendedFiles (version commit : String) (latest : Nat)
    (gitContents : List TreeItem) : List TreeItem :=
  gitContents ++
    [TreeItem.mk "VERSION.txt" 0o100644 (version ++ "\n") latest,
     TreeItem.mk GIT_HASH_FILENAME 0o100644 (commit ++ "\n") latest]

/-- One entry written to the zip archive by `zip_object.writestr`:
the archive-relative name, the timestamp behind the `date_time` tuple,
`external_attr = mode << 16`, and the data. -/
structure ZipEntry where
  filename : String
  dateTime : Nat
  externalAttr : Nat
  data : String
deriving DecidableEq, Repr

/-- One entry written to a tar archive by `tar_object.addfile`. -/
structure TarEntry where
  name : String
  mode : Nat
  size : Nat
  mtime : Nat
  data : String
deriving DecidableEq, Repr

/-- The zip entry built for one `git_file` (lines 252-256). -/
def zipEntryOf (archiveBase : String) (f : TreeItem) : ZipEntry :=
  ZipEntry.mk (archiveBase ++ "/" ++ f.path) f.time (f.mode <<< 16) f.data

/-- The tar entry built for one `git_file` (lines 271-275). -/
def tarEntryOf (archiveBase : String) (f : TreeItem) : TarEntry :=
  TarEntry.mk (archiveBase ++ "/" ++ f.path) f.mode f.data.length f.time f.data

/-- The zip-writing loop: entries are emitted one per `git_file`, in list
order. -/
def writeZipEntries (archiveBase : String) (files : List TreeItem) : List ZipEntry :=
  files.foldl (fun acc f => acc ++ [zipEntryOf archiveBase f]) []

/-- The tar-writing loop: entries are emitted one per `git_file`, in list
order. -/
def writeTarEntries (archiveBase : String) (files : List TreeItem) : List TarEntry :=
  files.foldl (fun acc f => acc ++ [tarEntryOf archiveBase f]) []

/-- The result of one iteration of the `tar_types` loop: the entries
written, the bytes of the file on disk after the loop iteration (including
the post-write gzip-header patch applied when `tar_path.suffix == ".gz"`),
and the path recorded in the artifact registry. -/
structure TarResult where
  entries : List TarEntry
  bytes : List Nat
  path : String
deriving Repr

/-- One iteration of the `for ext, comp in tar_types` loop of
`create_source_archives` (lines 263-283). In dry mode the archive file is
only touched (left empty); the gzip-header patch is applied whenever the
path's suffix is `".gz"`, in dry mode as well. `tarSer` embeds the
`tarfile` serialization of the written entries to bytes for compression
`comp`. -/
def makeTar (dry : Bool) (tarSer : String → List TarEntry → List Nat)
    (archiveBase distPath ext comp : String) (gitFiles : List TreeItem) : TarResult :=
  let tarPath := distPath ++ "/" ++ (archiveBase ++ ext)
  let entries := if dry then [] else writeTarEntries archiveBase gitFiles
  let raw := if dry then [] else tarSer comp entries
  let bytes := if pathSuffix tarPath = ".gz" then fileWrite raw 4 [0, 0, 0, 0] else raw
  TarResult.mk entries bytes tarPath

/-- Everything `create_source_archives` leaves behind: the entries and
bytes of the three archives and the artifact-registry additions, in
insertion order. -/
structure SourceArchives where
  zipEntries : List ZipEntry
  zipBytes : List Nat
  tgzEntries : List TarEntry
  tgzBytes : List Nat
  txzEntries : List TarEntry
  txzBytes : List Nat
  artifacts : List (String × String)
deriving Repr

/-- The body of `create_source_archives` (lines 232-283) after the commit
contents and `latest_mod_time` are known: append the two synthetic
entries, sort by time, and write the three archives. `zipSer` embeds the
`zipfile` serialization of the written entries to bytes. -/
def buildArchives (dry : Bool) (project version commit distPath : String)
    (zipSer : List ZipEntry → List Nat) (tarSer : String → List TarEntry → List Nat)
    (gitContents : List TreeItem) (latestModTime : Nat) : SourceArchives :=
  let archiveBase := project ++ "-" ++ version
  let gitFiles := sortByTime (appendedFiles version commit latestModTime gitContents)
  let zipPath := distPath ++ "/" ++ (archiveBase ++ ".zip")
  let zipEntries := if dry then [] else writeZipEntries archiveBase gitFiles
  let zipBytes := if dry then [] else zipSer zipEntries
  let gz := makeTar dry tarSer archiveBase distPath ".tar.gz" "gz" gitFiles
  let xz := makeTar dry tarSer archiveBase distPath ".tar.xz" "xz" gitFiles
  SourceArchives.mk zipEntries zipBytes gz.entries gz.bytes xz.entries xz.bytes
    [("src-zip", zipPath), ("src-tar-gz", gz.path), ("src-tar-xz", xz.path)]

/-- Embeds `Releaser.create_source_archives` (lines 231-283). Inputs: the
regular-file members of `git archive` for the commit, the
`git log --name-status` output, the manifest `checks` list, and the
project/version/commit strings; errors model the exceptions the method
can raise before or while producing the archives. -/
def createSourceArchives (dry : Bool) (project version commit distPath : String)
    (zipSer : List ZipEntry → List Nat) (tarSer : String → List TarEntry → List Nat)
    (fromiso : String → Nat) (commitLog : List String)
    (checks : List String) (rawFiles : List RawFile) :
    Except String SourceArchives :=
  match getGitContents fromiso commitLog checks rawFiles with
  | .error e => .error e
  | .ok gitContents =>
      match maxTime gitContents with
      | .error e => .error e
      | .ok latestModTime =>
          .ok (buildArchives dry project version commit distPath zipSer tarSer
            gitContents latestModTime)

/-- Whether an `Except` computation succeeded. -/
def isOkE {α : Type} (e : Except String α) : Bool :=
  match e with
  | .ok _ => true
  | .error _ => false

/-- The entry names of the zip archive of a `create_source_archives`
result (`[]` when the run failed). -/
def zipNamesOf (e : Except String SourceArchives) : List String :=
  match e with
  | .ok out => out.zipEntries.map ZipEntry.filename
  | .error _ => []

/-- The entry names of the `.tar.gz` archive of a `create_source_archives`
result (`[]` when the run failed). -/
def tgzNamesOf (e : Except String SourceArchives) : List String :=
  match e with
  | .ok out => out.tgzEntries.map TarEntry.name
  | .error _ => []

/-- The entry names of the `.tar.xz` archive of a `create_source_archives`
result (`[]` when the run failed). -/
def txzNamesOf (e : Except String SourceArchives) : List String :=
  match e with
  | .ok out => out.txzEntries.map TarEntry.name
  | .error _ => []

/-- The zip entries of a `create_source_archives` result. -/
def zipEntriesOf (e : Except String SourceArchives) : List ZipEntry :=
  match e with
  | .ok out => out.zipEntries
  | .error _ => []

/-- The `.tar.gz` entries of a `create_source_archives` result. -/
def tgzEntriesOf (e : Except String SourceArchives) : List TarEntry :=
  match e with
  | .ok out => out.tgzEntries
  | .error _ => []

/-- The `.tar.xz` entries of a `create_source_archives` result. -/
def txzEntriesOf (e : Except String SourceArchives) : List TarEntry :=
  match e with
  | .ok out => out.txzEntries
  | .error _ => []

/-- The bytes of the zip file of a `create_source_archives` result. -/
def zipBytesOf (e : Except String SourceArchives) : List Nat :=
  match e with
  | .ok out => out.zipBytes
  | .error _ => []

/-- The bytes of the `.tar.gz` file of a `create_source_archives` result. -/
def tgzBytesOf (e : Except String SourceArchives) : List Nat :=
  match e with
  | .ok out => out.tgzBytes
  | .error _ => []

/-- The bytes of the `.tar.xz` file of a `create_source_archives` result. -/
def txzBytesOf (e : Except String SourceArchives) : List Nat :=
  match e with
  | .ok out => out.txzBytes
  | .error _ => []

/-- The artifact-registry additions of a `create_source_archives` result. -/
def artifactsOf (e : Except String SourceArchives) : List (String × String) :=
  match e with
  | .ok out => out.artifacts
  | .error _ => []

/-- Embeds `Releaser.verify_dependencies` (lines 455-462). The `glob` calls
against the dependency folder are embedded as functions from the
dependency name to the list of matching files, one per platform family;
the method threads the `Releaser` state (here: the artifact registry, its
only run-mutable field) through unchanged. Each failed length check is
the corresponding `assert`. -/
def verifyDependencies (mingwGlob dmgGlob msvcGlob : String → List String)
    (artifacts : List (String × String)) :
    List String → Except String (List (String × String))
  | [] => .ok artifacts
  | dep :: rest =>
      if (mingwGlob dep).length = 1 then
        if (dmgGlob dep).length = 1 then
          if (msvcGlob dep).length = 1 then
            verifyDependencies mingwGlob dmgGlob msvcGlob artifacts rest
          else .error "AssertionError: Exactly one archive matches msvc dependency"
        else .error "AssertionError: Exactly one archive matches dmg dependency"
      else .error "AssertionError: Exactly one archive matches mingw dependency"

/-- The clean-git-tree check of `main` (lines 650-658): when not building
from an extracted archive, a nonempty (after `strip()`) porcelain status
raises unless `--force` was given. -/
def checkCleanTree (rootIsArchive : Bool) (porcelainOut : String) (force : Bool) :
    Except String Unit :=
  if rootIsArchive then .ok ()
  else
    let status := pyStrip porcelainOut
    if status = "" then .ok ()
    else if force then .ok ()
    else .error "The git repo contains modified and/or non-committed files. Run with --force to ignore."

/-- The overwrite guard of the MSVC dependency extraction in
`Releaser.build_vs` (lines 479-482): an already-existing destination file
raises `RuntimeError` unless `--overwrite` was given. -/
def msvcExtractDstCheck (dstExists overwrite : Bool) : Except String Unit :=
  if dstExists then
    if overwrite then .ok ()
    else .error "RuntimeError: Run with --overwrite to allow overwriting"
  else .ok ()

/-- Embeds `Releaser.extract_sdl_version` (lines 577-584). Each `reX` parameter
embeds `lambda text: next(re.finditer(pattern_X, text, flags=re.M)).group(1)`,
returning `none` when the pattern has no match (a `StopIteration` escape,
modelled as `none` overall). -/
def extractSdlVersion (reMajor reMinor reMicro : String → Option String)
    (text : String) : Option String :=
  match reMajor text with
  | none => none
  | some major =>
      match reMinor text with
      | none => none
      | some minor =>
          match reMicro text with
          | none => none
          | some micro => some (major ++ "." ++ minor ++ "." ++ micro)

/-! Helper lemmas. -/

theorem foldl_append_map {α β : Type} (g : α → β) (l : List α) : ∀ acc : List β,
    l.foldl (fun a f => a ++ [g f]) acc = acc ++ l.map g := by
  induction l with
  | nil => intro acc; simp
  | cons x xs ih => intro acc; simp [ih]

theorem writeZipEntries_eq_map (base : String) (files : List TreeItem) :
    writeZipEntries base files = files.map (zipEntryOf base) := by
  simpa using foldl_append_map (zipEntryOf base) files []

theorem writeTarEntries_eq_map (base : String) (files : List TreeItem) :
    writeTarEntries base files = files.map (tarEntryOf base) := by
  simpa using foldl_append_map (tarEntryOf base) files []

theorem sortByTime_sorted (l : List TreeItem) :
    List.Pairwise (fun a b : TreeItem => a.time ≤ b.time) (sortByTime l) :=
  List.sorted_insertionSort timele l

theorem sortByTime_perm (l : List TreeItem) : (sortByTime l).Perm l :=
  List.perm_insertionSort timele l

theorem filter_time_orderedInsert (t : Nat) (x : TreeItem) (l : List TreeItem) :
    (List.orderedInsert timele x l).filter (fun f => decide (f.time = t)) =
      if x.time = t then x :: l.filter (fun f => decide (f.time = t))
      else l.filter (fun f => decide (f.time = t)) := by
  induction l with
  | nil =>
      by_cases hx : x.time = t <;> simp [List.orderedInsert, hx]
  | cons b l ih =>
      by_cases hle : timele x b
      · rw [List.orderedInsert, if_pos hle]
        by_cases hx : x.time = t <;> simp [List.filter_cons, hx]
      · rw [List.orderedInsert, if_neg hle]
        have hlt : b.time < x.time := Nat.lt_of_not_le hle
        by_cases hx : x.time = t
        · have hb : ¬ b.time = t := by omega
          simp [List.filter_cons, hx, hb, ih]
        · by_cases hb : b.time = t <;> simp [List.filter_cons, hx, hb, ih]

theorem sortByTime_filter (t : Nat) (l : List TreeItem) :
    (sortByTime l).filter (fun f => decide (f.time = t)) =
      l.filter (fun f => decide (f.time = t)) := by
  induction l with
  | nil => rfl
  | cons x xs ih =>
      have ih2 : (List.insertionSort timele xs).filter (fun f => decide (f.time = t)) =
          xs.filter (fun f => decide (f.time = t)) := ih
      show (List.orderedInsert timele x (List.insertionSort timele xs)).filter _ = _
      rw [filter_time_orderedInsert]
      by_cases hx : x.time = t <;> simp [List.filter_cons, hx, ih2]

theorem le_foldl_max (ts : List Nat) : ∀ t x : Nat, x ≤ t → x ≤ ts.foldl Nat.max t := by
  induction ts with
  | nil => intro t x h; simpa using h
  | cons b bs ih =>
      intro t x h
      exact ih (Nat.max t b) x (Nat.le_trans h (Nat.le_max_left t b))

theorem mem_le_foldl_max (ts : List Nat) : ∀ t x : Nat, x ∈ ts → x ≤ ts.foldl Nat.max t := by
  induction ts with
  | nil => intro t x h; simp at h
  | cons b bs ih =>
      intro t x h
      rcases List.mem_cons.mp h with h | h
      · subst h; exact le_foldl_max bs (Nat.max t x) x (Nat.le_max_right t x)
      · exact ih (Nat.max t b) x h

theorem foldl_max_mem (ts : List Nat) : ∀ t : Nat,
    ts.foldl Nat.max t = t ∨ ts.foldl Nat.max t ∈ ts := by
  induction ts with
  | nil => intro t; exact Or.inl rfl
  | cons b bs ih =>
      intro t
      rw [List.foldl_cons]
      rcases ih (Nat.max t b) with h | h
      · rcases Nat.le_total t b with hb | hb
        · right
          have hmb : Nat.max t b = b := Nat.max_eq_right hb
          rw [h, hmb]; exact List.mem_cons_self b bs
        · left
          have hmb : Nat.max t b = t := Nat.max_eq_left hb
          rw [h, hmb]
      · right; exact List.mem_cons_of_mem b h

theorem maxTime_ok_spec (files : List TreeItem) (L : Nat) (h : maxTime files = .ok L) :
    (∀ f ∈ files, f.time ≤ L) ∧ ∃ f ∈ files, f.time = L := by
  cases files with
  | nil => simp [maxTime] at h
  | cons f fs =>
      have hL : (fs.map TreeItem.time).foldl Nat.max f.time = L := by
        simpa [maxTime] using h
      constructor
      · intro g hg
        rcases List.mem_cons.mp hg with hg | hg
        · subst hg; rw [← hL]; exact le_foldl_max _ _ _ (Nat.le_refl _)
        · rw [← hL]
          exact mem_le_foldl_max _ _ _ (List.mem_map_of_mem TreeItem.time hg)
      · rcases foldl_max_mem (fs.map TreeItem.time) f.time with h2 | h2
        · exact ⟨f, List.mem_cons_self f fs, by rw [← hL, h2]⟩
        · rcases List.mem_map.mp h2 with ⟨g, hg, hgt⟩
          exact ⟨g, List.mem_cons_of_mem f hg, by rw [← hL, hgt]⟩

theorem createSourceArchives_ok_inv (dry : Bool) (project version commit distPath : String)
    (zipSer : List ZipEntry → List Nat) (tarSer : String → List TarEntry → List Nat)
    (fromiso : String → Nat) (commitLog checks : List String) (rawFiles : List RawFile)
    (h : isOkE (createSourceArchives dry project version commit distPath zipSer tarSer
      fromiso commitLog checks rawFiles) = true) :
    ∃ gc L, getGitContents fromiso commitLog checks rawFiles = .ok gc ∧
      maxTime gc = .ok L ∧
      createSourceArchives dry project version commit distPath zipSer tarSer
          fromiso commitLog checks rawFiles =
        .ok (buildArchives dry project version commit distPath zipSer tarSer gc L) := by
  cases hg : getGitContents fromiso commitLog checks rawFiles with
  | error e => simp [createSourceArchives, hg, isOkE] at h
  | ok gc =>
      cases hm : maxTime gc with
      | error e => simp [createSourceArchives, hg, hm, isOkE] at h
      | ok L => exact ⟨gc, L, rfl, hm, by simp [createSourceArchives, hg, hm]⟩

theorem some_or {α : Type} (a : α) (o : Option α) : (some a).or o = some a := rfl

theorem or_assocO {α : Type} (a b c : Option α) : (a.or b).or c = a.or (b.or c) := by
  cases a <;> rfl

theorem lookup_append (l₁ l₂ : List (String × Nat)) (p : String) :
    (l₁ ++ l₂).lookup p = (l₁.lookup p).or (l₂.lookup p) := by
  induction l₁ with
  | nil => simp
  | cons kv l₁ ih =>
      obtain ⟨k, v⟩ := kv
      by_cases hk : p = k
      · have hbt : (p == k) = true := beq_iff_eq.mpr hk
        simp [List.lookup_cons, hbt, some_or]
      · have hbf : (p == k) = false := beq_eq_false_iff_ne.mpr hk
        simp [List.lookup_cons, hbf, ih]

theorem record_foldl_lookup (paths : List String) (t : Nat) (l : List String) :
    ∀ (acc : List (String × Nat)) (p : String),
      (l.foldl (fun a fp => if paths.contains fp && (a.lookup fp).isNone
          then a ++ [(fp, t)] else a) acc).lookup p =
        (acc.lookup p).or (if paths.contains p && l.contains p then some t else none) := by
  induction l with
  | nil => intro acc p; simp
  | cons fp rest ih =>
      intro acc p
      rw [List.foldl_cons, ih]
      by_cases hpf : p = fp
      · subst hpf
        by_cases hc : paths.contains p = true
        · have hmem : p ∈ paths := List.elem_iff.mp hc
          cases hacc : acc.lookup p with
          | some v => simp [hacc, hc, hmem, some_or]
          | none =>
              rw [if_pos (by simp [hc, hacc, hmem])]
              rw [lookup_append]
              have hbt : (p == p) = true := beq_iff_eq.mpr rfl
              simp [hacc, hc, hmem, List.lookup_cons, hbt, some_or]
        · have hcf : paths.contains p = false := Bool.not_eq_true _ |>.mp hc
          have hnm : ¬ p ∈ paths := fun hm => hc (List.elem_iff.mpr hm)
          rw [if_neg (by rw [hcf]; simp)]
          simp [hcf, hnm]
      · have hbf : (p == fp) = false := beq_eq_false_iff_ne.mpr hpf
        have hfix :
            (if paths.contains fp && (acc.lookup fp).isNone then acc ++ [(fp, t)] else acc).lookup p =
              acc.lookup p := by
          by_cases hcond : (paths.contains fp && (acc.lookup fp).isNone) = true
          · rw [if_pos hcond, lookup_append]
            simp [List.lookup_cons, hbf]
          · rw [if_neg hcond]
        rw [hfix]
        have hcc : (fp :: rest).contains p = rest.contains p := by
          show List.elem p (fp :: rest) = rest.contains p
          rw [List.elem_cons]
          rw [hbf]
        rw [hcc]

theorem recordPaths_lookup (paths : List String) (t : Nat) (acc : List (String × Nat))
    (fps : String) (p : String) :
    (recordPaths paths t acc fps).lookup p =
      (acc.lookup p).or
        (if paths.contains p && (pySplitTab fps).contains p then some t else none) :=
  record_foldl_lookup paths t (pySplitTab fps) acc p

theorem getFileTimesGo_ok_lookup (paths : List String) (fromiso : String → Nat) :
    ∀ (lines : List String) (current : Option Nat) (acc m : List (String × Nat)),
      getFileTimesGo paths fromiso current acc lines = .ok m →
      ∀ p : String, m.lookup p =
        (acc.lookup p).or
          (if paths.contains p then firstMention fromiso p current lines else none) := by
  intro lines
  induction lines with
  | nil =>
      intro current acc m h p
      simp only [getFileTimesGo] at h
      split at h
      · cases h
        simp [firstMention]
      · simp at h
  | cons line rest ih =>
      intro current acc m h p
      simp only [getFileTimesGo] at h
      simp only [firstMention]
      by_cases hline : line = ""
      · rw [if_pos hline] at h
        rw [if_pos hline]
        exact ih current acc m h p
      · rw [if_neg hline] at h
        rw [if_neg hline]
        by_cases htime : pyStartsWith line "time=" = true
        · rw [if_pos htime] at h
          rw [if_pos htime]
          exact ih _ acc m h p
        · rw [if_neg htime] at h
          rw [if_neg htime]
          cases hsplit : pySplitMax1 line with
          | none =>
              try rw [hsplit] at h
              replace h : (Except.error "ValueError: not enough values to unpack" :
                  Except String (List (String × Nat))) = Except.ok m := h
              simp at h
          | some pr =>
              obtain ⟨mt, fps⟩ := pr
              try rw [hsplit] at h
              try rw [hsplit]
              try dsimp only
              cases current with
              | none =>
                  replace h : (Except.error "AssertionError: current_time is not None" :
                      Except String (List (String × Nat))) = Except.ok m := h
                  simp at h
              | some t =>
                  replace h : getFileTimesGo paths fromiso (some t)
                      (recordPaths paths t acc fps) rest = Except.ok m := h
                  have hrec := ih (some t) (recordPaths paths t acc fps) m h p
                  rw [recordPaths_lookup] at hrec
                  rw [hrec, or_assocO]
                  congr 1
                  try dsimp only
                  by_cases hc : paths.contains p = true
                  · by_cases hm2 : (pySplitTab fps).contains p = true
                    · rw [hc, hm2]; simp [some_or]
                    · have hm2f : (pySplitTab fps).contains p = false :=
                        Bool.not_eq_true _ |>.mp hm2
                      rw [hc, hm2f]; simp
                  · have hcf : paths.contains p = false := Bool.not_eq_true _ |>.mp hc
                    rw [hcf]; simp

theorem getFileTimesGo_ok_covers (paths : List String) (fromiso : String → Nat) :
    ∀ (lines : List String) (current : Option Nat) (acc m : List (String × Nat)),
      getFileTimesGo paths fromiso current acc lines = .ok m →
      ∀ p ∈ paths, (m.lookup p).isSome = true := by
  intro lines
  induction lines with
  | nil =>
      intro current acc m h p hp
      simp only [getFileTimesGo] at h
      split at h
      · rename_i hcheck
        cases h
        have h1 := (Bool.and_eq_true _ _ |>.mp hcheck).1
        exact List.all_eq_true.mp h1 p hp
      · simp at h
  | cons line rest ih =>
      intro current acc m h p hp
      simp only [getFileTimesGo] at h
      by_cases hline : line = ""
      · rw [if_pos hline] at h; exact ih _ _ _ h p hp
      · rw [if_neg hline] at h
        by_cases htime : pyStartsWith line "time=" = true
        · rw [if_pos htime] at h; exact ih _ _ _ h p hp
        · rw [if_neg htime] at h
          cases hsplit : pySplitMax1 line with
          | none =>
              try rw [hsplit] at h
              replace h : (Except.error "ValueError: not enough values to unpack" :
                  Except String (List (String × Nat))) = Except.ok m := h
              simp at h
          | some pr =>
              obtain ⟨mt, fps⟩ := pr
              try rw [hsplit] at h
              cases current with
              | none =>
                  replace h : (Except.error "AssertionError: current_time is not None" :
                      Except String (List (String × Nat))) = Except.ok m := h
                  simp at h
              | some t =>
                  replace h : getFileTimesGo paths fromiso (some t)
                      (recordPaths paths t acc fps) rest = Except.ok m := h
                  exact ih _ _ _ h p hp

theorem getFileTimesGo_logOk (paths : List String) (fromiso : String → Nat) :
    ∀ (lines : List String) (current : Option Nat) (acc : List (String × Nat)),
      logOk current.isSome lines = true →
      (∃ m, getFileTimesGo paths fromiso current acc lines = .ok m) ∨
        getFileTimesGo paths fromiso current acc lines =
          .error "AssertionError: set(path_times.keys()) == set_paths" := by
  intro lines
  induction lines with
  | nil =>
      intro current acc _
      simp only [getFileTimesGo]
      split
      · exact Or.inl ⟨acc, rfl⟩
      · exact Or.inr rfl
  | cons line rest ih =>
      intro current acc hlog
      simp only [logOk] at hlog
      simp only [getFileTimesGo]
      by_cases hline : line = ""
      · rw [if_pos hline] at hlog ⊢
        exact ih current acc hlog
      · rw [if_neg hline] at hlog ⊢
        by_cases htime : pyStartsWith line "time=" = true
        · rw [if_pos htime] at hlog ⊢
          exact ih (some (fromiso (String.mk (line.data.drop 5)))) acc hlog
        · rw [if_neg htime] at hlog ⊢
          simp only [Bool.and_eq_true] at hlog
          cases hsplit : pySplitMax1 line with
          | none =>
              try rw [hsplit] at hlog
              simp at hlog
          | some pr =>
              obtain ⟨mt, fps⟩ := pr
              cases current with
              | none =>
                  simp at hlog
              | some t =>
                  try rw [hsplit]
                  try dsimp only
                  exact ih (some t) (recordPaths paths t acc fps) hlog.2

/-- C2: for every path handed to `_get_file_times`, the returned timestamp
is the committer time of the newest commit in the log output that touched
it (walking newest to oldest, first mention wins); and over a well-formed
log, a requested path touched by no commit makes the function fail with
the final assertion error. -/
theorem claim_C2 (fromiso : String → Nat) (commitLog paths : List String) :
    (∀ m, getFileTimes fromiso commitLog paths = .ok m →
       ∀ p ∈ paths, ∃ t, firstMention fromiso p none commitLog = some t ∧
         m.lookup p = some t)
    ∧ (∀ p ∈ paths, firstMention fromiso p none commitLog = none →
        logOk false commitLog = true →
        getFileTimes fromiso commitLog paths =
          .error "AssertionError: set(path_times.keys()) == set_paths") := by
  constructor
  · intro m h p hp
    have hl := getFileTimesGo_ok_lookup paths fromiso commitLog none [] m h p
    have hc : paths.contains p = true := List.elem_iff.mpr hp
    rw [hc] at hl
    simp at hl
    have hs := getFileTimesGo_ok_covers paths fromiso commitLog none [] m h p hp
    cases hfm : firstMention fromiso p none commitLog with
    | none =>
        rw [hfm] at hl
        rw [hl] at hs
        simp at hs
    | some t =>
        rw [hfm] at hl
        exact ⟨t, rfl, hl⟩
  · intro p hp hfm hlog
    rcases getFileTimesGo_logOk paths fromiso commitLog none [] hlog with ⟨m, hm⟩ | herr
    · have hl := getFileTimesGo_ok_lookup paths fromiso commitLog none [] m hm p
      have hc : paths.contains p = true := List.elem_iff.mpr hp
      rw [hc] at hl
      simp at hl
      rw [hfm] at hl
      have hs := getFileTimesGo_ok_covers paths fromiso commitLog none [] m hm p hp
      rw [hl] at hs
      simp at hs
    · exact herr

/-- Witness for C2 at a concrete log and path set. -/
theorem claim_C2_witness :
    ∃ t, firstMention (fun s => s.length) "README" none
        ["time=abc", "", "M\ta.txt", "time=x", "M\tREADME\t.gitignore"] = some t ∧
      List.lookup "README" [("a.txt", 3), ("README", 1), (".gitignore", 1)] = some t :=
  (claim_C2 (fun s => s.length)
      ["time=abc", "", "M\ta.txt", "time=x", "M\tREADME\t.gitignore"]
      ["a.txt", "README", ".gitignore"]).1
    [("a.txt", 3), ("README", 1), (".gitignore", 1)] (by rfl) "README" (by decide)

theorem pathSuffix_append_targz (s : String) : pathSuffix (s ++ ".tar.gz") = ".gz" := by
  unfold pathSuffix
  have hd : (s ++ ".tar.gz").data = s.data ++ ['.', 't', 'a', 'r', '.', 'g', 'z'] := by
    rw [String.data_append]
  rw [hd]
  simp [List.takeWhile_cons]

theorem pathSuffix_append_tarxz (s : String) : pathSuffix (s ++ ".tar.xz") = ".xz" := by
  unfold pathSuffix
  have hd : (s ++ ".tar.xz").data = s.data ++ ['.', 't', 'a', 'r', '.', 'x', 'z'] := by
    rw [String.data_append]
  rw [hd]
  simp [List.takeWhile_cons]

theorem fileWrite_prefix_len (raw : List Nat) :
    (raw.take 4 ++ List.replicate (4 - raw.length) 0).length = 4 := by
  simp [List.length_take]
  omega

theorem fileWrite_patch_zero (raw : List Nat) (j : Nat) (h4 : 4 ≤ j) (h8 : j < 8) :
    (fileWrite raw 4 [0, 0, 0, 0])[j]? = some 0 := by
  unfold fileWrite
  rw [List.append_assoc]
  rw [List.getElem?_append_right (by rw [fileWrite_prefix_len]; omega)]
  rw [fileWrite_prefix_len]
  rw [List.getElem?_append]
  have hj : j - 4 < 4 := by omega
  rw [if_pos (by simpa using hj)]
  have hrep : ([0, 0, 0, 0] : List Nat) = List.replicate 4 0 := rfl
  rw [hrep, List.getElem?_replicate, if_pos hj]

theorem fileWrite_patch_keep (raw : List Nat) (hlen : 8 ≤ raw.length) (i : Nat)
    (hi : i < 4 ∨ 8 ≤ i) :
    (fileWrite raw 4 [0, 0, 0, 0])[i]? = raw[i]? := by
  unfold fileWrite
  rcases hi with hi | hi
  · rw [List.append_assoc]
    rw [List.getElem?_append]
    rw [if_pos (by rw [fileWrite_prefix_len]; omega)]
    rw [List.getElem?_append]
    have htl : (raw.take 4).length = 4 := by simp [List.length_take]; omega
    rw [if_pos (by rw [htl]; omega)]
    rw [List.getElem?_take, if_pos hi]
  · rw [List.append_assoc, List.append_assoc]
    have hlens : (raw.take 4).length = 4 := by simp [List.length_take]; omega
    have hreps : (List.replicate (4 - raw.length) 0 : List Nat) = [] := by
      have h0 : 4 - raw.length = 0 := by omega
      rw [h0]; rfl
    rw [List.getElem?_append_right (by rw [hlens]; omega)]
    rw [hreps]
    simp only [List.nil_append]
    rw [List.getElem?_append_right (by simp; omega)]
    rw [List.getElem?_drop]
    congr 1
    simp [hlens]
    omega

theorem makeTar_gz (tarSer : String → List TarEntry → List Nat)
    (archiveBase distPath : String) (files : List TreeItem) :
    makeTar false tarSer archiveBase distPath ".tar.gz" "gz" files =
      TarResult.mk (writeTarEntries archiveBase files)
        (fileWrite (tarSer "gz" (writeTarEntries archiveBase files)) 4 [0, 0, 0, 0])
        (distPath ++ "/" ++ (archiveBase ++ ".tar.gz")) := by
  unfold makeTar
  have hassoc : distPath ++ "/" ++ (archiveBase ++ ".tar.gz") =
      (distPath ++ "/" ++ archiveBase) ++ ".tar.gz" := by
    simp [String.append_assoc]
  have hsuf : pathSuffix (distPath ++ "/" ++ (archiveBase ++ ".tar.gz")) = ".gz" := by
    rw [hassoc, pathSuffix_append_targz]
  simp [hsuf]

theorem makeTar_xz (tarSer : String → List TarEntry → List Nat)
    (archiveBase distPath : String) (files : List TreeItem) :
    makeTar false tarSer archiveBase distPath ".tar.xz" "xz" files =
      TarResult.mk (writeTarEntries archiveBase files)
        (tarSer "xz" (writeTarEntries archiveBase files))
        (distPath ++ "/" ++ (archiveBase ++ ".tar.xz")) := by
  unfold makeTar
  have hassoc : distPath ++ "/" ++ (archiveBase ++ ".tar.xz") =
      (distPath ++ "/" ++ archiveBase) ++ ".tar.xz" := by
    simp [String.append_assoc]
  have hsuf : pathSuffix (distPath ++ "/" ++ (archiveBase ++ ".tar.xz")) = ".xz" := by
    rw [hassoc, pathSuffix_append_tarxz]
  simp [hsuf]

theorem buildArchives_false (project version commit distPath : String)
    (zipSer : List ZipEntry → List Nat) (tarSer : String → List TarEntry → List Nat)
    (gc : List TreeItem) (L : Nat) :
    buildArchives false project version commit distPath zipSer tarSer gc L =
      SourceArchives.mk
        (writeZipEntries (project ++ "-" ++ version)
          (sortByTime (appendedFiles version commit L gc)))
        (zipSer (writeZipEntries (project ++ "-" ++ version)
          (sortByTime (appendedFiles version commit L gc))))
        (writeTarEntries (project ++ "-" ++ version)
          (sortByTime (appendedFiles version commit L gc)))
        (fileWrite (tarSer "gz" (writeTarEntries (project ++ "-" ++ version)
          (sortByTime (appendedFiles version commit L gc)))) 4 [0, 0, 0, 0])
        (writeTarEntries (project ++ "-" ++ version)
          (sortByTime (appendedFiles version commit L gc)))
        (tarSer "xz" (writeTarEntries (project ++ "-" ++ version)
          (sortByTime (appendedFiles version commit L gc))))
        [("src-zip", distPath ++ "/" ++ ((project ++ "-" ++ version) ++ ".zip")),
         ("src-tar-gz", distPath ++ "/" ++ ((project ++ "-" ++ version) ++ ".tar.gz")),
         ("src-tar-xz", distPath ++ "/" ++ ((project ++ "-" ++ version) ++ ".tar.xz"))] := by
  unfold buildArchives
  dsimp only
  rw [makeTar_gz, makeTar_xz]
  rfl

/-- C1: in `create_source_archives`, after the two synthetic entries are
appended, the sorted entry list is non-decreasing in timestamp, entries of
equal timestamp keep their prior relative order (the per-timestamp
sublists are unchanged), and the zip, `.tar.gz` and `.tar.xz` archives
each write their entries in exactly that one order. -/
theorem claim_C1 (project version commit distPath : String)
    (zipSer : List ZipEntry → List Nat) (tarSer : String → List TarEntry → List Nat)
    (fromiso : String → Nat) (commitLog checks : List String) (rawFiles : List RawFile)
    (h : isOkE (createSourceArchives false project version commit distPath zipSer tarSer
      fromiso commitLog checks rawFiles) = true) :
    ∃ gc L,
      getGitContents fromiso commitLog checks rawFiles = .ok gc ∧
      maxTime gc = .ok L ∧
      List.Pairwise (fun a b : TreeItem => a.time ≤ b.time)
        (sortByTime (appendedFiles version commit L gc)) ∧
      (∀ t, (sortByTime (appendedFiles version commit L gc)).filter
            (fun f => decide (f.time = t)) =
          (appendedFiles version commit L gc).filter (fun f => decide (f.time = t))) ∧
      zipEntriesOf (createSourceArchives false project version commit distPath zipSer tarSer
          fromiso commitLog checks rawFiles) =
        (sortByTime (appendedFiles version commit L gc)).map
          (zipEntryOf (project ++ "-" ++ version)) ∧
      tgzEntriesOf (createSourceArchives false project version commit distPath zipSer tarSer
          fromiso commitLog checks rawFiles) =
        (sortByTime (appendedFiles version commit L gc)).map
          (tarEntryOf (project ++ "-" ++ version)) ∧
      txzEntriesOf (createSourceArchives false project version commit distPath zipSer tarSer
          fromiso commitLog checks rawFiles) =
        (sortByTime (appendedFiles version commit L gc)).map
          (tarEntryOf (project ++ "-" ++ version)) := by
  obtain ⟨gc, L, hg, hm, hok⟩ := createSourceArchives_ok_inv false project version commit
    distPath zipSer tarSer fromiso commitLog checks rawFiles h
  refine ⟨gc, L, hg, hm, sortByTime_sorted _, fun t => sortByTime_filter t _, ?_, ?_, ?_⟩
  · rw [hok]
    simp [zipEntriesOf, buildArchives_false, writeZipEntries_eq_map]
  · rw [hok]
    simp [tgzEntriesOf, buildArchives_false, writeTarEntries_eq_map]
  · rw [hok]
    simp [txzEntriesOf, buildArchives_false, writeTarEntries_eq_map]

/-- Witness for C1 at a concrete commit snapshot. -/
theorem claim_C1_witness :
    ∃ gc L,
      getGitContents (fun s => s.length) ["time=abc", "M\tREADME"] []
          [RawFile.mk "README" 33188 "R"] = .ok gc ∧
      maxTime gc = .ok L ∧
      List.Pairwise (fun a b : TreeItem => a.time ≤ b.time)
        (sortByTime (appendedFiles "1.0" "c0" L gc)) ∧
      (∀ t, (sortByTime (appendedFiles "1.0" "c0" L gc)).filter
            (fun f => decide (f.time = t)) =
          (appendedFiles "1.0" "c0" L gc).filter (fun f => decide (f.time = t))) ∧
      zipEntriesOf (createSourceArchives false "P" "1.0" "c0" "d" (fun _ => [])
          (fun _ _ => []) (fun s => s.length) ["time=abc", "M\tREADME"] []
          [RawFile.mk "README" 33188 "R"]) =
        (sortByTime (appendedFiles "1.0" "c0" L gc)).map (zipEntryOf ("P" ++ "-" ++ "1.0")) ∧
      tgzEntriesOf (createSourceArchives false "P" "1.0" "c0" "d" (fun _ => [])
          (fun _ _ => []) (fun s => s.length) ["time=abc", "M\tREADME"] []
          [RawFile.mk "README" 33188 "R"]) =
        (sortByTime (appendedFiles "1.0" "c0" L gc)).map (tarEntryOf ("P" ++ "-" ++ "1.0")) ∧
      txzEntriesOf (createSourceArchives false "P" "1.0" "c0" "d" (fun _ => [])
          (fun _ _ => []) (fun s => s.length) ["time=abc", "M\tREADME"] []
          [RawFile.mk "README" 33188 "R"]) =
        (sortByTime (appendedFiles "1.0" "c0" L gc)).map (tarEntryOf ("P" ++ "-" ++ "1.0")) :=
  claim_C1 "P" "1.0" "c0" "d" (fun _ => []) (fun _ _ => []) (fun s => s.length)
    ["time=abc", "M\tREADME"] [] [RawFile.mk "README" 33188 "R"] (by rfl)

/-- C3: `create_source_archives` appends exactly two synthetic entries —
`VERSION.txt` holding the dotted version plus newline and the
`GIT_HASH_FILENAME` marker holding the commit hash plus newline — and
both carry the maximum modification time over the files taken from the
commit. -/
theorem claim_C3 (project version commit distPath : String)
    (zipSer : List ZipEntry → List Nat) (tarSer : String → List TarEntry → List Nat)
    (fromiso : String → Nat) (commitLog checks : List String) (rawFiles : List RawFile)
    (h : isOkE (createSourceArchives false project version commit distPath zipSer tarSer
      fromiso commitLog checks rawFiles) = true) :
    ∃ gc L,
      getGitContents fromiso commitLog checks rawFiles = .ok gc ∧
      maxTime gc = .ok L ∧
      (∀ f ∈ gc, f.time ≤ L) ∧
      (∃ f ∈ gc, f.time = L) ∧
      appendedFiles version commit L gc =
        gc ++ [TreeItem.mk "VERSION.txt" 0o100644 (version ++ "\n") L,
               TreeItem.mk GIT_HASH_FILENAME 0o100644 (commit ++ "\n") L] := by
  obtain ⟨gc, L, hg, hm, _⟩ := createSourceArchives_ok_inv false project version commit
    distPath zipSer tarSer fromiso commitLog checks rawFiles h
  have hspec := maxTime_ok_spec gc L hm
  exact ⟨gc, L, hg, hm, hspec.1, hspec.2, rfl⟩

/-- Witness for C3 at a concrete commit snapshot. -/
theorem claim_C3_witness :
    ∃ gc L,
      getGitContents (fun s => s.length) ["time=abc", "M\tREADME"] []
          [RawFile.mk "README" 33188 "R"] = .ok gc ∧
      maxTime gc = .ok L ∧
      (∀ f ∈ gc, f.time ≤ L) ∧
      (∃ f ∈ gc, f.time = L) ∧
      appendedFiles "1.0" "c0" L gc =
        gc ++ [TreeItem.mk "VERSION.txt" 0o100644 ("1.0" ++ "\n") L,
               TreeItem.mk GIT_HASH_FILENAME 0o100644 ("c0" ++ "\n") L] :=
  claim_C3 "P" "1.0" "c0" "d" (fun _ => []) (fun _ _ => []) (fun s => s.length)
    ["time=abc", "M\tREADME"] [] [RawFile.mk "README" 33188 "R"] (by rfl)

/-- C4: after the `.tar.gz` archive is written, the four bytes at offsets
4 through 7 (the gzip header modification-time field) are overwritten with
zeros, while the `.tar.xz` and zip outputs are exactly the serialized
bytes, with no post-write patch. -/
theorem claim_C4 (project version commit distPath : String)
    (zipSer : List ZipEntry → List Nat) (tarSer : String → List TarEntry → List Nat)
    (fromiso : String → Nat) (commitLog checks : List String) (rawFiles : List RawFile)
    (h : isOkE (createSourceArchives false project version commit distPath zipSer tarSer
      fromiso commitLog checks rawFiles) = true) :
    tgzBytesOf (createSourceArchives false project version commit distPath zipSer tarSer
        fromiso commitLog checks rawFiles) =
      fileWrite (tarSer "gz" (tgzEntriesOf (createSourceArchives false project version commit
        distPath zipSer tarSer fromiso commitLog checks rawFiles))) 4 [0, 0, 0, 0] ∧
    txzBytesOf (createSourceArchives false project version commit distPath zipSer tarSer
        fromiso commitLog checks rawFiles) =
      tarSer "xz" (txzEntriesOf (createSourceArchives false project version commit
        distPath zipSer tarSer fromiso commitLog checks rawFiles)) ∧
    zipBytesOf (createSourceArchives false project version commit distPath zipSer tarSer
        fromiso commitLog checks rawFiles) =
      zipSer (zipEntriesOf (createSourceArchives false project version commit
        distPath zipSer tarSer fromiso commitLog checks rawFiles)) ∧
    (∀ j, 4 ≤ j → j < 8 →
      (tgzBytesOf (createSourceArchives false project version commit distPath zipSer tarSer
        fromiso commitLog checks rawFiles))[j]? = some 0) ∧
    (8 ≤ (tarSer "gz" (tgzEntriesOf (createSourceArchives false project version commit
        distPath zipSer tarSer fromiso commitLog checks rawFiles))).length →
      ∀ i, i < 4 ∨ 8 ≤ i →
        (tgzBytesOf (createSourceArchives false project version commit distPath zipSer tarSer
          fromiso commitLog checks rawFiles))[i]? =
        (tarSer "gz" (tgzEntriesOf (createSourceArchives false project version commit
          distPath zipSer tarSer fromiso commitLog checks rawFiles)))[i]?) := by
  obtain ⟨gc, L, hg, hm, hok⟩ := createSourceArchives_ok_inv false project version commit
    distPath zipSer tarSer fromiso commitLog checks rawFiles h
  rw [hok]
  rw [buildArchives_false]
  refine ⟨rfl, rfl, rfl, ?_, ?_⟩
  · intro j h4 h8
    exact fileWrite_patch_zero _ j h4 h8
  · intro hlen i hi
    exact fileWrite_patch_keep _ hlen i hi

/-- Witness for C4 at a concrete commit snapshot with a serializer of
length at least 8. -/
theorem claim_C4_witness :
    tgzBytesOf (createSourceArchives false "P" "1.0" "c0" "d" (fun _ => [])
        (fun _ _ => [1, 2, 3, 4, 5, 6, 7, 8, 9]) (fun s => s.length)
        ["time=abc", "M\tREADME"] [] [RawFile.mk "README" 33188 "R"]) =
      fileWrite ((fun (_ : String) (_ : List TarEntry) => [1, 2, 3, 4, 5, 6, 7, 8, 9]) "gz"
        (tgzEntriesOf (createSourceArchives false "P" "1.0" "c0" "d" (fun _ => [])
          (fun _ _ => [1, 2, 3, 4, 5, 6, 7, 8, 9]) (fun s => s.length)
          ["time=abc", "M\tREADME"] [] [RawFile.mk "README" 33188 "R"]))) 4 [0, 0, 0, 0] ∧
    txzBytesOf (createSourceArchives false "P" "1.0" "c0" "d" (fun _ => [])
        (fun _ _ => [1, 2, 3, 4, 5, 6, 7, 8, 9]) (fun s => s.length)
        ["time=abc", "M\tREADME"] [] [RawFile.mk "README" 33188 "R"]) =
      (fun (_ : String) (_ : List TarEntry) => [1, 2, 3, 4, 5, 6, 7, 8, 9]) "xz"
        (txzEntriesOf (createSourceArchives false "P" "1.0" "c0" "d" (fun _ => [])
          (fun _ _ => [1, 2, 3, 4, 5, 6, 7, 8, 9]) (fun s => s.length)
          ["time=abc", "M\tREADME"] [] [RawFile.mk "README" 33188 "R"])) ∧
    zipBytesOf (createSourceArchives false "P" "1.0" "c0" "d" (fun _ => [])
        (fun _ _ => [1, 2, 3, 4, 5, 6, 7, 8, 9]) (fun s => s.length)
        ["time=abc", "M\tREADME"] [] [RawFile.mk "README" 33188 "R"]) =
      (fun (_ : List ZipEntry) => ([] : List Nat))
        (zipEntriesOf (createSourceArchives false "P" "1.0" "c0" "d" (fun _ => [])
          (fun _ _ => [1, 2, 3, 4, 5, 6, 7, 8, 9]) (fun s => s.length)
          ["time=abc", "M\tREADME"] [] [RawFile.mk "README" 33188 "R"])) ∧
    (∀ j, 4 ≤ j → j < 8 →
      (tgzBytesOf (createSourceArchives false "P" "1.0" "c0" "d" (fun _ => [])
        (fun _ _ => [1, 2, 3, 4, 5, 6, 7, 8, 9]) (fun s => s.length)
        ["time=abc", "M\tREADME"] [] [RawFile.mk "README" 33188 "R"]))[j]? = some 0) ∧
    (8 ≤ ((fun (_ : String) (_ : List TarEntry) => [1, 2, 3, 4, 5, 6, 7, 8, 9]) "gz"
        (tgzEntriesOf (createSourceArchives false "P" "1.0" "c0" "d" (fun _ => [])
          (fun _ _ => [1, 2, 3, 4, 5, 6, 7, 8, 9]) (fun s => s.length)
          ["time=abc", "M\tREADME"] [] [RawFile.mk "README" 33188 "R"]))).length →
      ∀ i, i < 4 ∨ 8 ≤ i →
        (tgzBytesOf (createSourceArchives false "P" "1.0" "c0" "d" (fun _ => [])
          (fun _ _ => [1, 2, 3, 4, 5, 6, 7, 8, 9]) (fun s => s.length)
          ["time=abc", "M\tREADME"] [] [RawFile.mk "README" 33188 "R"]))[i]? =
        ((fun (_ : String) (_ : List TarEntry) => [1, 2, 3, 4, 5, 6, 7, 8, 9]) "gz"
          (tgzEntriesOf (createSourceArchives false "P" "1.0" "c0" "d" (fun _ => [])
            (fun _ _ => [1, 2, 3, 4, 5, 6, 7, 8, 9]) (fun s => s.length)
            ["time=abc", "M\tREADME"] [] [RawFile.mk "README" 33188 "R"])))[i]?) :=
  claim_C4 "P" "1.0" "c0" "d" (fun _ => []) (fun _ _ => [1, 2, 3, 4, 5, 6, 7, 8, 9])
    (fun s => s.length) ["time=abc", "M\tREADME"] [] [RawFile.mk "README" 33188 "R"] (by rfl)

/-- C5: `extract_sdl_version` joins the first capture of the major, minor
and micro regexes with dots, and raises when any of the three patterns has
no match in the version file's text. -/
theorem claim_C5 (reMajor reMinor reMicro : String → Option String) (text : String) :
    (∀ a b c, reMajor text = some a → reMinor text = some b → reMicro text = some c →
      extractSdlVersion reMajor reMinor reMicro text = some (a ++ "." ++ b ++ "." ++ c)) ∧
    ((reMajor text = none ∨ reMinor text = none ∨ reMicro text = none) →
      extractSdlVersion reMajor reMinor reMicro text = none) := by
  constructor
  · intro a b c ha hb hc
    unfold extractSdlVersion
    rw [ha, hb, hc]
  · intro hnone
    unfold extractSdlVersion
    rcases hnone with h | h | h
    · rw [h]
    · cases hA : reMajor text <;> simp [h]
    · cases hA : reMajor text <;> cases hB : reMinor text <;> simp [h]

/-- Witness for C5 at concrete match functions. -/
theorem claim_C5_witness :
    extractSdlVersion (fun _ => some "3") (fun _ => some "2") (fun _ => some "9") "hdr" =
      some ("3" ++ "." ++ "2" ++ "." ++ "9") ∧
    extractSdlVersion (fun _ => none) (fun _ => some "2") (fun _ => some "9") "hdr" = none :=
  ⟨(claim_C5 (fun _ => some "3") (fun _ => some "2") (fun _ => some "9") "hdr").1
      "3" "2" "9" rfl rfl rfl,
   (claim_C5 (fun _ => none) (fun _ => some "2") (fun _ => some "9") "hdr").2 (Or.inl rfl)⟩

/-- C8: `verify_dependencies` succeeds exactly when, for every declared
dependency, each of the three platform families has exactly one glob
match; otherwise it raises an assertion error; and it leaves the releaser
state unchanged. -/
theorem claim_C8 (mingwGlob dmgGlob msvcGlob : String → List String)
    (artifacts : List (String × String)) (deps : List String) :
    ((∃ a, verifyDependencies mingwGlob dmgGlob msvcGlob artifacts deps = .ok a) ↔
      ∀ dep ∈ deps, (mingwGlob dep).length = 1 ∧ (dmgGlob dep).length = 1 ∧
        (msvcGlob dep).length = 1) ∧
    (∀ a, verifyDependencies mingwGlob dmgGlob msvcGlob artifacts deps = .ok a →
      a = artifacts) := by
  induction deps with
  | nil =>
      refine ⟨⟨fun _ dep hdep => absurd hdep (List.not_mem_nil dep), fun _ => ⟨artifacts, rfl⟩⟩, ?_⟩
      intro a ha
      simp [verifyDependencies] at ha
      exact ha.symm
  | cons dep rest ih =>
      by_cases h1 : (mingwGlob dep).length = 1
      · by_cases h2 : (dmgGlob dep).length = 1
        · by_cases h3 : (msvcGlob dep).length = 1
          · constructor
            · constructor
              · rintro ⟨a, ha⟩ dep2 hdep2
                rcases List.mem_cons.mp hdep2 with hd | hd
                · subst hd; exact ⟨h1, h2, h3⟩
                · refine (ih.1.mp ⟨a, ?_⟩) dep2 hd
                  simpa [verifyDependencies, h1, h2, h3] using ha
              · intro hall
                obtain ⟨a, ha⟩ := ih.1.mpr (fun d hd => hall d (List.mem_cons_of_mem dep hd))
                exact ⟨a, by simpa [verifyDependencies, h1, h2, h3] using ha⟩
            · intro a ha
              exact ih.2 a (by simpa [verifyDependencies, h1, h2, h3] using ha)
          · constructor
            · constructor
              · rintro ⟨a, ha⟩
                simp [verifyDependencies, h1, h2, h3] at ha
              · intro hall
                exact absurd (hall dep (List.mem_cons_self dep rest)).2.2 h3
            · intro a ha
              simp [verifyDependencies, h1, h2, h3] at ha
        · constructor
          · constructor
            · rintro ⟨a, ha⟩
              simp [verifyDependencies, h1, h2] at ha
            · intro hall
              exact absurd (hall dep (List.mem_cons_self dep rest)).2.1 h2
          · intro a ha
            simp [verifyDependencies, h1, h2] at ha
      · constructor
        · constructor
          · rintro ⟨a, ha⟩
            simp [verifyDependencies, h1] at ha
          · intro hall
            exact absurd (hall dep (List.mem_cons_self dep rest)).1 h1
        · intro a ha
          simp [verifyDependencies, h1] at ha

/-- Witness for C8 at a concrete dependency set. -/
theorem claim_C8_witness :
    ((∃ a, verifyDependencies (fun _ => ["m.tar.gz"]) (fun _ => ["d.dmg"])
        (fun _ => ["v.zip"]) [] ["SDL"] = .ok a) ↔
      ∀ dep ∈ ["SDL"], ((fun (_ : String) => ["m.tar.gz"]) dep).length = 1 ∧
        ((fun (_ : String) => ["d.dmg"]) dep).length = 1 ∧
        ((fun (_ : String) => ["v.zip"]) dep).length = 1) ∧
    (∀ a, verifyDependencies (fun _ => ["m.tar.gz"]) (fun _ => ["d.dmg"])
        (fun _ => ["v.zip"]) [] ["SDL"] = .ok a → a = []) :=
  claim_C8 (fun _ => ["m.tar.gz"]) (fun _ => ["d.dmg"]) (fun _ => ["v.zip"]) [] ["SDL"]

/-- C9: outside archive mode, a porcelain status that is nonempty after
stripping makes the run raise unless `--force` was given; and during the
MSVC dependency extraction an existing destination file raises unless
`--overwrite` was given. -/
theorem claim_C9 (porcelainOut : String) (force dstExists overwrite : Bool) :
    (checkCleanTree false porcelainOut force = .ok () ↔
      (pyStrip porcelainOut = "" ∨ force = true)) ∧
    (msvcExtractDstCheck dstExists overwrite = .ok () ↔
      (dstExists = false ∨ overwrite = true)) := by
  constructor
  · unfold checkCleanTree
    by_cases hs : pyStrip porcelainOut = ""
    · simp [hs]
    · cases force <;> simp [hs]
  · unfold msvcExtractDstCheck
    cases dstExists <;> cases overwrite <;> simp

/-- Witness for C9: a whitespace-only porcelain status passes without
force, and an existing destination without overwrite raises. -/
theorem claim_C9_witness :
    (checkCleanTree false "\n" false = .ok () ↔ (pyStrip "\n" = "" ∨ false = true)) ∧
    (msvcExtractDstCheck true false = .ok () ↔ (true = false ∨ false = true)) :=
  claim_C9 "\n" false true false

theorem strAppendLeftCancel (a p q : String) (h : a ++ p = a ++ q) : p = q := by
  have hd : (a ++ p).data = (a ++ q).data := congrArg String.data h
  rw [String.data_append, String.data_append] at hd
  exact String.ext (List.append_cancel_left hd)

theorem getGitContents_ok_inv (fromiso : String → Nat) (commitLog checks : List String)
    (rawFiles : List RawFile) (gc : List TreeItem)
    (h : getGitContents fromiso commitLog checks rawFiles = .ok gc) :
    (∀ c ∈ checks, (rawFiles.map RawFile.name).contains c = true) ∧
    ∃ fileTimes, getFileTimes fromiso commitLog (rawFiles.map RawFile.name) = .ok fileTimes ∧
      gc = rawFiles.filterMap (fun f =>
        if pathFilter f.name then
          some (TreeItem.mk f.name f.mode f.data ((fileTimes.lookup f.name).getD 0))
        else none) := by
  unfold getGitContents at h
  by_cases hc : checks.all (fun c => (rawFiles.map RawFile.name).contains c) = true
  · rw [if_pos hc] at h
    refine ⟨fun c hcc => List.all_eq_true.mp hc c hcc, ?_⟩
    cases hft : getFileTimes fromiso commitLog (rawFiles.map RawFile.name) with
    | error e =>
        rw [hft] at h
        simp at h
    | ok ft =>
        rw [hft] at h
        refine ⟨ft, rfl, ?_⟩
        simp only [Except.ok.injEq] at h
        exact h.symm
  · rw [if_neg hc] at h
    simp at h

theorem getGitContents_pathFilter (fromiso : String → Nat) (commitLog checks : List String)
    (rawFiles : List RawFile) (gc : List TreeItem)
    (h : getGitContents fromiso commitLog checks rawFiles = .ok gc) :
    ∀ f ∈ gc, pathFilter f.path = true := by
  obtain ⟨-, ft, -, hgc⟩ := getGitContents_ok_inv fromiso commitLog checks rawFiles gc h
  intro f hf
  rw [hgc] at hf
  rcases List.mem_filterMap.mp hf with ⟨raw, -, heq⟩
  by_cases hp : pathFilter raw.name = true
  · rw [if_pos hp] at heq
    simp only [Option.some.injEq] at heq
    rw [← heq]
    exact hp
  · rw [if_neg hp] at heq
    simp at heq

theorem getGitContents_mem_of_checks (fromiso : String → Nat) (commitLog checks : List String)
    (rawFiles : List RawFile) (gc : List TreeItem)
    (h : getGitContents fromiso commitLog checks rawFiles = .ok gc)
    (c : String) (hc : c ∈ checks) (hp : pathFilter c = true) :
    ∃ f ∈ gc, f.path = c := by
  obtain ⟨hchecks, ft, -, hgc⟩ := getGitContents_ok_inv fromiso commitLog checks rawFiles gc h
  have hmem : c ∈ rawFiles.map RawFile.name := List.elem_iff.mp (hchecks c hc)
  rcases List.mem_map.mp hmem with ⟨raw, hraw, hname⟩
  refine ⟨TreeItem.mk c raw.mode raw.data ((ft.lookup c).getD 0), ?_, rfl⟩
  rw [hgc]
  apply List.mem_filterMap.mpr
  refine ⟨raw, hraw, ?_⟩
  rw [hname, if_pos hp]

theorem mem_appendedFiles (version commit : String) (L : Nat) (gc : List TreeItem)
    (f : TreeItem) :
    f ∈ appendedFiles version commit L gc ↔
      f ∈ gc ∨ f = TreeItem.mk "VERSION.txt" 0o100644 (version ++ "\n") L ∨
        f = TreeItem.mk GIT_HASH_FILENAME 0o100644 (commit ++ "\n") L := by
  unfold appendedFiles
  simp

theorem zipNamesOf_ok (dry : Bool) (project version commit distPath : String)
    (zipSer : List ZipEntry → List Nat) (tarSer : String → List TarEntry → List Nat)
    (gc : List TreeItem) (L : Nat) (hdry : dry = false) :
    zipNamesOf (.ok (buildArchives dry project version commit distPath zipSer tarSer gc L)) =
      (sortByTime (appendedFiles version commit L gc)).map
        (fun f => (project ++ "-" ++ version) ++ "/" ++ f.path) := by
  subst hdry
  rw [buildArchives_false]
  simp only [zipNamesOf]
  rw [writeZipEntries_eq_map, List.map_map]
  rfl

theorem tgzNamesOf_ok (dry : Bool) (project version commit distPath : String)
    (zipSer : List ZipEntry → List Nat) (tarSer : String → List TarEntry → List Nat)
    (gc : List TreeItem) (L : Nat) (hdry : dry = false) :
    tgzNamesOf (.ok (buildArchives dry project version commit distPath zipSer tarSer gc L)) =
      (sortByTime (appendedFiles version commit L gc)).map
        (fun f => (project ++ "-" ++ version) ++ "/" ++ f.path) := by
  subst hdry
  rw [buildArchives_false]
  simp only [tgzNamesOf]
  rw [writeTarEntries_eq_map, List.map_map]
  rfl

theorem txzNamesOf_ok (dry : Bool) (project version commit distPath : String)
    (zipSer : List ZipEntry → List Nat) (tarSer : String → List TarEntry → List Nat)
    (gc : List TreeItem) (L : Nat) (hdry : dry = false) :
    txzNamesOf (.ok (buildArchives dry project version commit distPath zipSer tarSer gc L)) =
      (sortByTime (appendedFiles version commit L gc)).map
        (fun f => (project ++ "-" ++ version) ++ "/" ++ f.path) := by
  subst hdry
  rw [buildArchives_false]
  simp only [txzNamesOf]
  rw [writeTarEntries_eq_map, List.map_map]
  rfl

/-- C10: every commit file whose path starts with `".git"` contributes no
entry to any of the three archives (the only `".git"`-prefixed entry name
is the synthetic marker, and any entry carrying the marker name holds the
commit hash, never commit-file data), while the synthetic `".git-hash"`
marker is present in all three. -/
theorem claim_C10 (project version commit distPath : String)
    (zipSer : List ZipEntry → List Nat) (tarSer : String → List TarEntry → List Nat)
    (fromiso : String → Nat) (commitLog checks : List String) (rawFiles : List RawFile)
    (h : isOkE (createSourceArchives false project version commit distPath zipSer tarSer
      fromiso commitLog checks rawFiles) = true) :
    (∀ p : String, pyStartsWith p ".git" = true → p ≠ GIT_HASH_FILENAME →
      ((project ++ "-" ++ version) ++ "/" ++ p) ∉
          zipNamesOf (createSourceArchives false project version commit distPath zipSer tarSer
            fromiso commitLog checks rawFiles) ∧
        ((project ++ "-" ++ version) ++ "/" ++ p) ∉
          tgzNamesOf (createSourceArchives false project version commit distPath zipSer tarSer
            fromiso commitLog checks rawFiles) ∧
        ((project ++ "-" ++ version) ++ "/" ++ p) ∉
          txzNamesOf (createSourceArchives false project version commit distPath zipSer tarSer
            fromiso commitLog checks rawFiles)) ∧
    (((project ++ "-" ++ version) ++ "/" ++ GIT_HASH_FILENAME) ∈
        zipNamesOf (createSourceArchives false project version commit distPath zipSer tarSer
          fromiso commitLog checks rawFiles) ∧
      ((project ++ "-" ++ version) ++ "/" ++ GIT_HASH_FILENAME) ∈
        tgzNamesOf (createSourceArchives false project version commit distPath zipSer tarSer
          fromiso commitLog checks rawFiles) ∧
      ((project ++ "-" ++ version) ++ "/" ++ GIT_HASH_FILENAME) ∈
        txzNamesOf (createSourceArchives false project version commit distPath zipSer tarSer
          fromiso commitLog checks rawFiles)) ∧
    (∀ e ∈ zipEntriesOf (createSourceArchives false project version commit distPath zipSer
        tarSer fromiso commitLog checks rawFiles),
      e.filename = (project ++ "-" ++ version) ++ "/" ++ GIT_HASH_FILENAME →
        e.data = commit ++ "\n") ∧
    (∀ e ∈ tgzEntriesOf (createSourceArchives false project version commit distPath zipSer
        tarSer fromiso commitLog checks rawFiles),
      e.name = (project ++ "-" ++ version) ++ "/" ++ GIT_HASH_FILENAME →
        e.data = commit ++ "\n") ∧
    (∀ e ∈ txzEntriesOf (createSourceArchives false project version commit distPath zipSer
        tarSer fromiso commitLog checks rawFiles),
      e.name = (project ++ "-" ++ version) ++ "/" ++ GIT_HASH_FILENAME →
        e.data = commit ++ "\n") := by
  obtain ⟨gc, L, hg, hm, hok⟩ := createSourceArchives_ok_inv false project version commit
    distPath zipSer tarSer fromiso commitLog checks rawFiles h
  have hchar : ∀ f ∈ sortByTime (appendedFiles version commit L gc),
      f ∈ gc ∨ f = TreeItem.mk "VERSION.txt" 0o100644 (version ++ "\n") L ∨
        f = TreeItem.mk GIT_HASH_FILENAME 0o100644 (commit ++ "\n") L :=
    fun f hf => (mem_appendedFiles version commit L gc f).mp
      ((sortByTime_perm _).mem_iff.mp hf)
  have hnotmem : ∀ p : String, pyStartsWith p ".git" = true → p ≠ GIT_HASH_FILENAME →
      ((project ++ "-" ++ version) ++ "/" ++ p) ∉
        (sortByTime (appendedFiles version commit L gc)).map
          (fun f => (project ++ "-" ++ version) ++ "/" ++ f.path) := by
    intro p hpgit hpne hmem
    rcases List.mem_map.mp hmem with ⟨f, hf, heq⟩
    have hput : f.path = p := strAppendLeftCancel ((project ++ "-" ++ version) ++ "/") _ _ heq
    rcases hchar f hf with hfg | hfv | hfh
    · have hpf := getGitContents_pathFilter fromiso commitLog checks rawFiles gc hg f hfg
      rw [hput] at hpf
      simp [pathFilter, hpgit] at hpf
    · have hput2 : "VERSION.txt" = p := by rw [hfv] at hput; exact hput
      rw [← hput2] at hpgit
      exact absurd hpgit (by decide)
    · have hput2 : GIT_HASH_FILENAME = p := by rw [hfh] at hput; exact hput
      exact hpne hput2.symm
  have hdata : ∀ f ∈ sortByTime (appendedFiles version commit L gc),
      (project ++ "-" ++ version) ++ "/" ++ f.path =
          (project ++ "-" ++ version) ++ "/" ++ GIT_HASH_FILENAME →
        f.data = commit ++ "\n" := by
    intro f hf heq
    have hput : f.path = GIT_HASH_FILENAME :=
      strAppendLeftCancel ((project ++ "-" ++ version) ++ "/") _ _ heq
    rcases hchar f hf with hfg | hfv | hfh
    · have hpf := getGitContents_pathFilter fromiso commitLog checks rawFiles gc hg f hfg
      rw [hput] at hpf
      exact absurd hpf (by decide)
    · have hput2 : "VERSION.txt" = GIT_HASH_FILENAME := by rw [hfv] at hput; exact hput
      exact absurd hput2 (by decide)
    · rw [hfh]
  have hhashmem : ((project ++ "-" ++ version) ++ "/" ++ GIT_HASH_FILENAME) ∈
      (sortByTime (appendedFiles version commit L gc)).map
        (fun f => (project ++ "-" ++ version) ++ "/" ++ f.path) := by
    apply List.mem_map.mpr
    refine ⟨TreeItem.mk GIT_HASH_FILENAME 0o100644 (commit ++ "\n") L, ?_, rfl⟩
    exact (sortByTime_perm _).mem_iff.mpr
      ((mem_appendedFiles version commit L gc _).mpr (Or.inr (Or.inr rfl)))
  have hz := zipNamesOf_ok false project version commit distPath zipSer tarSer gc L rfl
  have hgzn := tgzNamesOf_ok false project version commit distPath zipSer tarSer gc L rfl
  have hxzn := txzNamesOf_ok false project version commit distPath zipSer tarSer gc L rfl
  have hzE : zipEntriesOf (createSourceArchives false project version commit distPath zipSer
        tarSer fromiso commitLog checks rawFiles) =
      (sortByTime (appendedFiles version commit L gc)).map
        (zipEntryOf (project ++ "-" ++ version)) := by
    rw [hok]
    simp [zipEntriesOf, buildArchives_false, writeZipEntries_eq_map]
  have hgE : tgzEntriesOf (createSourceArchives false project version commit distPath zipSer
        tarSer fromiso commitLog checks rawFiles) =
      (sortByTime (appendedFiles version commit L gc)).map
        (tarEntryOf (project ++ "-" ++ version)) := by
    rw [hok]
    simp [tgzEntriesOf, buildArchives_false, writeTarEntries_eq_map]
  have hxE : txzEntriesOf (createSourceArchives false project version commit distPath zipSer
        tarSer fromiso commitLog checks rawFiles) =
      (sortByTime (appendedFiles version commit L gc)).map
        (tarEntryOf (project ++ "-" ++ version)) := by
    rw [hok]
    simp [txzEntriesOf, buildArchives_false, writeTarEntries_eq_map]
  refine ⟨?_, ?_, ?_, ?_, ?_⟩
  · intro p hpgit hpne
    refine ⟨?_, ?_, ?_⟩
    · rw [hok, hz]
      exact hnotmem p hpgit hpne
    · rw [hok, hgzn]
      exact hnotmem p hpgit hpne
    · rw [hok, hxzn]
      exact hnotmem p hpgit hpne
  · refine ⟨?_, ?_, ?_⟩
    · rw [hok, hz]; exact hhashmem
    · rw [hok, hgzn]; exact hhashmem
    · rw [hok, hxzn]; exact hhashmem
  · intro e he heq
    rw [hzE] at he
    rcases List.mem_map.mp he with ⟨f, hf, hef⟩
    rw [← hef] at heq
    rw [← hef]
    exact hdata f hf heq
  · intro e he heq
    rw [hgE] at he
    rcases List.mem_map.mp he with ⟨f, hf, hef⟩
    rw [← hef] at heq
    rw [← hef]
    exact hdata f hf heq
  · intro e he heq
    rw [hxE] at he
    rcases List.mem_map.mp he with ⟨f, hf, hef⟩
    rw [← hef] at heq
    rw [← hef]
    exact hdata f hf heq

/-- Witness for C10 at a concrete commit snapshot: the marker entry is
present and a `".gitmodules"`-named entry is absent. -/
theorem claim_C10_witness :
    ((("P" ++ "-" ++ "1.0") ++ "/" ++ GIT_HASH_FILENAME) ∈
      zipNamesOf (createSourceArchives false "P" "1.0" "c0" "d" (fun _ => [])
        (fun _ _ => []) (fun s => s.length) ["time=abc", "M\tREADME"] []
        [RawFile.mk "README" 33188 "R"])) ∧
    ((("P" ++ "-" ++ "1.0") ++ "/" ++ ".gitmodules") ∉
      zipNamesOf (createSourceArchives false "P" "1.0" "c0" "d" (fun _ => [])
        (fun _ _ => []) (fun s => s.length) ["time=abc", "M\tREADME"] []
        [RawFile.mk "README" 33188 "R"])) :=
  ⟨(claim_C10 "P" "1.0" "c0" "d" (fun _ => []) (fun _ _ => []) (fun s => s.length)
      ["time=abc", "M\tREADME"] [] [RawFile.mk "README" 33188 "R"] (by rfl)).2.1.1,
   ((claim_C10 "P" "1.0" "c0" "d" (fun _ => []) (fun _ _ => []) (fun s => s.length)
      ["time=abc", "M\tREADME"] [] [RawFile.mk "README" 33188 "R"] (by rfl)).1
     ".gitmodules" (by decide) (by decide)).1⟩

/-- C6 counterexample: a `checks` file named `".gitignore"` is present in
the commit listing, so `create_source_archives` completes without error,
yet the file appears in none of the three archives — the claim that every
`checks` file is present in the generated archives fails here. -/
theorem claim_C6_counterexample :
    isOkE (createSourceArchives false "P" "1.0" "c0" "d" (fun _ => []) (fun _ _ => [])
      (fun s => s.length) ["time=abc", "M\t.gitignore", "M\tREADME"] [".gitignore"]
      [RawFile.mk ".gitignore" 33188 "X", RawFile.mk "README" 33188 "R"]) = true ∧
    zipNamesOf (createSourceArchives false "P" "1.0" "c0" "d" (fun _ => []) (fun _ _ => [])
      (fun s => s.length) ["time=abc", "M\t.gitignore", "M\tREADME"] [".gitignore"]
      [RawFile.mk ".gitignore" 33188 "X", RawFile.mk "README" 33188 "R"]) =
      ["P-1.0/README", "P-1.0/VERSION.txt", "P-1.0/.git-hash"] ∧
    ¬ ("P-1.0/.gitignore" ∈ zipNamesOf (createSourceArchives false "P" "1.0" "c0" "d"
      (fun _ => []) (fun _ _ => []) (fun s => s.length)
      ["time=abc", "M\t.gitignore", "M\tREADME"] [".gitignore"]
      [RawFile.mk ".gitignore" 33188 "X", RawFile.mk "README" 33188 "R"])) ∧
    ¬ ("P-1.0/.gitignore" ∈ tgzNamesOf (createSourceArchives false "P" "1.0" "c0" "d"
      (fun _ => []) (fun _ _ => []) (fun s => s.length)
      ["time=abc", "M\t.gitignore", "M\tREADME"] [".gitignore"]
      [RawFile.mk ".gitignore" 33188 "X", RawFile.mk "README" 33188 "R"])) ∧
    ¬ ("P-1.0/.gitignore" ∈ txzNamesOf (createSourceArchives false "P" "1.0" "c0" "d"
      (fun _ => []) (fun _ _ => []) (fun s => s.length)
      ["time=abc", "M\t.gitignore", "M\tREADME"] [".gitignore"]
      [RawFile.mk ".gitignore" 33188 "X", RawFile.mk "README" 33188 "R"])) := by
  decide

/-- C6 (amended): a `checks` file absent from the commit's file listing
makes the run fail with an assertion error before any archive is
produced; and every `checks` file whose path does not start with `".git"`
is present (under the archive's top-level prefix) in all three generated
archives. (Checks files starting with `".git"` pass the assertion but are
excluded from the archives by `_path_filter`.) -/
theorem claim_C6 (project version commit distPath : String)
    (zipSer : List ZipEntry → List Nat) (tarSer : String → List TarEntry → List Nat)
    (fromiso : String → Nat) (commitLog checks : List String) (rawFiles : List RawFile) :
    (∀ c ∈ checks, (rawFiles.map RawFile.name).contains c = false →
      createSourceArchives false project version commit distPath zipSer tarSer fromiso
        commitLog checks rawFiles = .error "AssertionError: a checks file must exist") ∧
    (∀ c ∈ checks, pyStartsWith c ".git" = false →
      isOkE (createSourceArchives false project version commit distPath zipSer tarSer
        fromiso commitLog checks rawFiles) = true →
      ((project ++ "-" ++ version) ++ "/" ++ c) ∈
          zipNamesOf (createSourceArchives false project version commit distPath zipSer tarSer
            fromiso commitLog checks rawFiles) ∧
        ((project ++ "-" ++ version) ++ "/" ++ c) ∈
          tgzNamesOf (createSourceArchives false project version commit distPath zipSer tarSer
            fromiso commitLog checks rawFiles) ∧
        ((project ++ "-" ++ version) ++ "/" ++ c) ∈
          txzNamesOf (createSourceArchives false project version commit distPath zipSer tarSer
            fromiso commitLog checks rawFiles)) := by
  constructor
  · intro c hc hcf
    have hall : checks.all (fun c2 => (rawFiles.map RawFile.name).contains c2) = false :=
      List.all_eq_false.mpr ⟨c, hc, by rw [hcf]; simp⟩
    have hgc : getGitContents fromiso commitLog checks rawFiles =
        .error "AssertionError: a checks file must exist" := by
      unfold getGitContents
      dsimp only
      rw [if_neg (by rw [hall]; simp)]
    unfold createSourceArchives
    rw [hgc]
  · intro c hc hcgit hok
    obtain ⟨gc, L, hg, hm, hokE⟩ := createSourceArchives_ok_inv false project version commit
      distPath zipSer tarSer fromiso commitLog checks rawFiles hok
    have hp : pathFilter c = true := by simp [pathFilter, hcgit]
    obtain ⟨f, hf, hfc⟩ := getGitContents_mem_of_checks fromiso commitLog checks rawFiles gc
      hg c hc hp
    have hfs : f ∈ sortByTime (appendedFiles version commit L gc) :=
      (sortByTime_perm _).mem_iff.mpr
        ((mem_appendedFiles version commit L gc f).mpr (Or.inl hf))
    have hmem : ((project ++ "-" ++ version) ++ "/" ++ c) ∈
        (sortByTime (appendedFiles version commit L gc)).map
          (fun f2 => (project ++ "-" ++ version) ++ "/" ++ f2.path) :=
      List.mem_map.mpr ⟨f, hfs, by rw [hfc]⟩
    refine ⟨?_, ?_, ?_⟩
    · rw [hokE, zipNamesOf_ok false project version commit distPath zipSer tarSer gc L rfl]
      exact hmem
    · rw [hokE, tgzNamesOf_ok false project version commit distPath zipSer tarSer gc L rfl]
      exact hmem
    · rw [hokE, txzNamesOf_ok false project version commit distPath zipSer tarSer gc L rfl]
      exact hmem

/-- Witness for C6 at a concrete commit snapshot and checks list. -/
theorem claim_C6_witness :
    ((("P" ++ "-" ++ "1.0") ++ "/" ++ "README") ∈
      zipNamesOf (createSourceArchives false "P" "1.0" "c0" "d" (fun _ => [])
        (fun _ _ => []) (fun s => s.length) ["time=abc", "M\tREADME"] ["README"]
        [RawFile.mk "README" 33188 "R"])) ∧
    ((("P" ++ "-" ++ "1.0") ++ "/" ++ "README") ∈
      tgzNamesOf (createSourceArchives false "P" "1.0" "c0" "d" (fun _ => [])
        (fun _ _ => []) (fun s => s.length) ["time=abc", "M\tREADME"] ["README"]
        [RawFile.mk "README" 33188 "R"])) ∧
    ((("P" ++ "-" ++ "1.0") ++ "/" ++ "README") ∈
      txzNamesOf (createSourceArchives false "P" "1.0" "c0" "d" (fun _ => [])
        (fun _ _ => []) (fun s => s.length) ["time=abc", "M\tREADME"] ["README"]
        [RawFile.mk "README" 33188 "R"])) :=
  (claim_C6 "P" "1.0" "c0" "d" (fun _ => []) (fun _ _ => []) (fun s => s.length)
    ["time=abc", "M\tREADME"] ["README"] [RawFile.mk "README" 33188 "R"]).2
    "README" (by decide) (by decide) (by rfl)

end BuildRelease
